import Mathlib

/-!
# opr-paas: the Paas reconcile / finalize orchestration

A shallow embedding of

* `internal/controller/paas_controller.go`: `GetPaas`, `Reconcile`, `finalizePaaS`;
* `controllers/rolebindings_controller.go`: `EnsureAdminRoleBinding`,
  `backendRoleBinding`, `BackendEnabledRoleBindings`.

Go pointers are replaced by explicit value passing.  A Go `error` is an
`Option GoError` (`none` is `nil`).  The object store client and the
sub-reconcilers are collaborators whose code is outside these files; one pass
calls each of them at most once, so a pass is determined by one outcome per
collaborator (`Env`), and every call the code makes is recorded, with its
argument, in a trace (`List Call`).
-/

namespace OprPaas

/-! ## Data model -/

/-- A non-nil Go `error`: its text and what `errors.IsNotFound` answers on it. -/
structure GoError where
  isNotFound : Bool
  text : String
  deriving DecidableEq, Repr

/-- One entry of the status log: severity, operation, kind and identifier of
the target, detail. -/
structure StatusMessage where
  severity : String
  operation : String
  targetKind : String
  targetIdentifier : String
  detail : String
  deriving DecidableEq, Repr

/-- The status of a Paas: the ordered log of messages. -/
structure PaasStatus where
  Messages : List StatusMessage
  deriving DecidableEq, Repr

/-- Modelled from the spec: `PaasStatus.Truncate` is declared in `api/v1alpha1`,
outside the files at hand.  "truncate() — clears the log". -/
def PaasStatus.Truncate (_ps : PaasStatus) : PaasStatus :=
  { Messages := [] }

/-- Modelled from the spec: the five-argument `PaasStatus.AddMessage` used by
`controllers/rolebindings_controller.go` is declared in `api/v1alpha1`, outside
the files at hand.  "append(severity, operation, targetKind, targetIdentifier,
detail) — always succeeds": one message is put at the end of the log. -/
def PaasStatus.AddMessage (ps : PaasStatus)
    (level action kind name message : String) : PaasStatus :=
  { Messages := ps.Messages ++
      [{ severity := level, operation := action, targetKind := kind,
         targetIdentifier := name, detail := message }] }

/-- Modelled from the spec: the constant `v1alpha1.PaasStatusInfo` is declared
outside the files at hand; it is the severity INFO. -/
def PaasStatusInfo : String := "INFO"

/-- Modelled from the spec: the constant `v1alpha1.PaasStatusReconcile` is
declared outside the files at hand; it is the operation of the final
"reconcile succeeded" message. -/
def PaasStatusReconcile : String := "reconcile"

/-- The fields of `v1alpha1.Paas` the orchestration reads or writes. -/
structure Paas where
  Kind : String
  Name : String
  DeletionTimestamp : Option Nat
  Finalizers : List String
  Status : PaasStatus
  deriving DecidableEq, Repr

/-- Modelled from the spec: the four-argument `PaasStatus.AddMessage` used by
`internal/controller/paas_controller.go` (level, action, object, message) is
declared in `api/v1alpha1`, outside the files at hand.  It appends one message
whose target is the object handed over. -/
def PaasStatus.AddMessageObj (ps : PaasStatus)
    (level action : String) (obj : Paas) (message : String) : PaasStatus :=
  ps.AddMessage level action obj.Kind obj.Name message

/-- The request: `types.NamespacedName`. -/
structure Request where
  Namespace : String
  Name : String
  deriving DecidableEq, Repr

/-- The value of `reconcile.Result`; `RequeueAfter` is a `time.Duration`, in
nanoseconds. -/
structure Result where
  Requeue : Bool
  RequeueAfter : Nat
  deriving DecidableEq, Repr

/-- The value of `time.Second`, nanoseconds. -/
def Second : Nat := 1000000000

/-- The constant `paasFinalizer`. -/
def paasFinalizer : String := "paas.cpet.belastingdienst.nl/finalizer"

/-- The check `controllerutil.ContainsFinalizer`. -/
def ContainsFinalizer (o : Paas) (finalizer : String) : Bool :=
  o.Finalizers.contains finalizer

/-- The call `controllerutil.AddFinalizer`: appends the token unless present. -/
def AddFinalizer (o : Paas) (finalizer : String) : Paas :=
  if o.Finalizers.contains finalizer then o
  else { o with Finalizers := o.Finalizers ++ [finalizer] }

/-- The call `controllerutil.RemoveFinalizer`: drops every occurrence. -/
def RemoveFinalizer (o : Paas) (finalizer : String) : Paas :=
  { o with Finalizers := o.Finalizers.filter (fun e => e != finalizer) }

/-! ## Collaborators and the trace of calls -/

/-- The seven steps of the pipeline of `Reconcile`. -/
inductive PipelineStep where
  | ReconcileQuotas
  | ReconcileClusterWideQuota
  | ReconcilePaasNss
  | EnsureAppProject
  | ReconcileGroups
  | EnsureLdapGroups
  | ReconcileRolebindings
  deriving DecidableEq, Repr

/-- The teardown calls of `finalizePaaS`; `FinalizeLdapGroups` carries its
argument `cleanedLdapQueries`. -/
inductive FinalizeCall where
  | FinalizeAppSetCaps
  | FinalizeAppProject
  | FinalizeClusterQuotas
  | FinalizeGroups
  | FinalizeLdapGroups (cleanedLdapQueries : List String)
  | FinalizeExtraClusterRoleBindings
  | FinalizeClusterWideQuotas
  deriving DecidableEq, Repr

/-- A call made on a collaborator, with the argument that matters. -/
inductive Call where
  | Get (name : String)
  | Update (finalizers : List String)
  | StatusUpdate (status : PaasStatus)
  | Step (s : PipelineStep)
  | Finalize (c : FinalizeCall)
  deriving DecidableEq, Repr

/-- Modelled from the spec: the seven pipeline steps (`ReconcileQuotas` to
`ReconcileRolebindings`) are declared outside the files at hand.  A step
"appends its own StatusMessages" and returns an error: its outcome is the
messages it appends to the status log of the working copy, in order, and the
error it returns. -/
structure StepOutcome where
  messages : List StatusMessage
  err : Option GoError
  deriving DecidableEq, Repr

/-- The outcomes of the collaborators in one pass.  The teardown steps are
declared outside the files at hand and are taken by what they return. -/
structure Env where
  /-- Outcome of `r.Get`: an error, or the stored object. -/
  Get : Except GoError Paas
  /-- Outcome of `r.Update`. -/
  Update : Option GoError
  /-- Outcome of `r.Status().Update`. -/
  StatusUpdate : Option GoError
  /-- Outcome of each pipeline step. -/
  step : PipelineStep → StepOutcome
  /-- The error returned by each teardown call. -/
  finalize : FinalizeCall → Option GoError
  /-- The first result of `FinalizeGroups`. -/
  cleanedLdapQueries : List String

/-! ## `finalizePaaS` -/

/-- The function `finalizePaaS` (paas_controller.go, 196-228): the trace
extended by the teardown calls made, and the error returned. -/
def finalizePaaS (env : Env) (tr : List Call) : List Call × Option GoError :=
  let tr := tr ++ [Call.Finalize .FinalizeAppSetCaps]
  match env.finalize .FinalizeAppSetCaps with
  | some err => (tr, some err)
  | none =>
  let tr := tr ++ [Call.Finalize .FinalizeAppProject]
  match env.finalize .FinalizeAppProject with
  | some err => (tr, some err)
  | none =>
  let tr := tr ++ [Call.Finalize .FinalizeClusterQuotas]
  match env.finalize .FinalizeClusterQuotas with
  | some err => (tr, some err)
  | none =>
  let tr := tr ++ [Call.Finalize .FinalizeGroups]
  let cleanedLdapQueries := env.cleanedLdapQueries
  match env.finalize .FinalizeGroups with
  | some err =>
    -- ldapGroups are only cleaned if the corresponding group is also cleaned
    let tr := tr ++ [Call.Finalize (.FinalizeLdapGroups cleanedLdapQueries)]
    match env.finalize (.FinalizeLdapGroups cleanedLdapQueries) with
    | some _ldapErr => (tr, some err)
    | none => (tr, some err)
  | none =>
  let tr := tr ++ [Call.Finalize (.FinalizeLdapGroups cleanedLdapQueries)]
  match env.finalize (.FinalizeLdapGroups cleanedLdapQueries) with
  | some err => (tr, some err)
  | none =>
  let tr := tr ++ [Call.Finalize .FinalizeExtraClusterRoleBindings]
  match env.finalize .FinalizeExtraClusterRoleBindings with
  | some err => (tr, some err)
  | none =>
  let tr := tr ++ [Call.Finalize .FinalizeClusterWideQuotas]
  match env.finalize .FinalizeClusterWideQuotas with
  | some err => (tr, some err)
  | none => (tr, none)

/-! ## `GetPaas` -/

/-- What `GetPaas` leaves behind: the returned pointer (`none` is `nil`), the
returned error, the object allocated at line 71 as it is at return, and the
trace. -/
structure GetPaasOut where
  paas : Option Paas
  err : Option GoError
  obj : Paas
  trace : List Call

/-- The function `GetPaas` (paas_controller.go, 67-121). -/
def GetPaas (env : Env) (req : Request) (tr : List Call) : GetPaasOut :=
  let paas : Paas :=
    { Kind := "", Name := req.Name, DeletionTimestamp := none, Finalizers := [],
      Status := { Messages := [] } }
  let tr := tr ++ [Call.Get req.Name]
  match env.Get with
  | .error err =>
    if err.isNotFound then
      { paas := none, err := none, obj := paas, trace := tr }
    else
      { paas := none, err := some err, obj := paas, trace := tr }
  | .ok paas =>
    if paas.DeletionTimestamp.isSome then
      if ContainsFinalizer paas paasFinalizer then
        match finalizePaaS env tr with
        | (tr, some err) => { paas := none, err := some err, obj := paas, trace := tr }
        | (tr, none) =>
          let paas := RemoveFinalizer paas paasFinalizer
          let tr := tr ++ [Call.Update paas.Finalizers]
          match env.Update with
          | some err => { paas := none, err := some err, obj := paas, trace := tr }
          | none => { paas := none, err := none, obj := paas, trace := tr }
      else
        { paas := none, err := none, obj := paas, trace := tr }
    else
      if !ContainsFinalizer paas paasFinalizer then
        let paas := AddFinalizer paas paasFinalizer
        let tr := tr ++ [Call.Update paas.Finalizers]
        match env.Update with
        | some err => { paas := none, err := some err, obj := paas, trace := tr }
        | none => { paas := some paas, err := none, obj := paas, trace := tr }
      else
        { paas := some paas, err := none, obj := paas, trace := tr }

/-! ## `Reconcile` -/

/-- The value `errResult` of `Reconcile`. -/
def errResult : Result := { Requeue := true, RequeueAfter := Second * 10 }

/-- The value `okResult` of `Reconcile`. -/
def okResult : Result := { Requeue := false, RequeueAfter := 0 }

/-- What `Reconcile` leaves behind: the two results and the trace. -/
structure ReconcileOut where
  result : Result
  err : Option GoError
  trace : List Call

/-- The state of a run of the pipeline: the working copy and the trace. -/
structure PassState where
  paas : Paas
  trace : List Call

/-- One call of a pipeline step on the working copy: the call is recorded and
the messages of the step are appended to the status log. -/
def callStep (env : Env) (s : PipelineStep) (st : PassState) : PassState × Option GoError :=
  ({ paas := { st.paas with
        Status := { Messages := st.paas.Status.Messages ++ (env.step s).messages } },
     trace := st.trace ++ [Call.Step s] },
   (env.step s).err)

/-- The body of `Reconcile` after the `defer` statement (paas_controller.go,
158-179): the values handed to `return`, and the state at that point. -/
def reconcileBody (env : Env) (st : PassState) : Result × Option GoError × PassState :=
  match callStep env .ReconcileQuotas st with
  | (st, some err) => (errResult, some err, st)
  | (st, none) =>
  match callStep env .ReconcileClusterWideQuota st with
  | (st, some err) => (errResult, some err, st)
  | (st, none) =>
  match callStep env .ReconcilePaasNss st with
  | (st, some err) => (errResult, some err, st)
  | (st, none) =>
  match callStep env .EnsureAppProject st with
  | (st, some err) => (errResult, some err, st)
  | (st, none) =>
  match callStep env .ReconcileGroups st with
  | (st, some err) => (errResult, some err, st)
  | (st, none) =>
  match callStep env .EnsureLdapGroups st with
  | (st, some err) => (errResult, some err, st)
  | (st, none) =>
  match callStep env .ReconcileRolebindings st with
  | (st, some err) => (errResult, some err, st)
  | (st, none) =>
  let paas := { st.paas with
    Status := st.paas.Status.AddMessageObj PaasStatusInfo PaasStatusReconcile st.paas "succeeded" }
  (okResult, none, { st with paas := paas })

/-- The function `Reconcile` (paas_controller.go, 125-180).  `result` and `err`
are named results: the deferred closure runs after `return` has set them and
assigns the outcome of `r.Status().Update` to `err`. -/
def Reconcile (env : Env) (req : Request) : ReconcileOut :=
  let g := GetPaas env req []
  match g.err with
  | some err => { result := errResult, err := some err, trace := g.trace }
  | none =>
  match g.paas with
  | none => { result := okResult, err := none, trace := g.trace }
  | some paas =>
  let paas := { paas with Status := paas.Status.Truncate }
  let (result, _err, st) := reconcileBody env { paas := paas, trace := g.trace }
  -- the deferred closure
  let tr := st.trace ++ [Call.StatusUpdate st.paas.Status]
  { result := result, err := env.StatusUpdate, trace := tr }

/-! ## `controllers/rolebindings_controller.go` -/

/-- The Kubernetes `metav1.TypeMeta`. -/
structure TypeMeta where
  Kind : String
  APIVersion : String
  deriving DecidableEq, Repr

/-- The text `TypeMeta.String()` gives. -/
def TypeMeta.String (t : TypeMeta) : String :=
  "&TypeMeta\x7bKind:" ++ t.Kind ++ ",APIVersion:" ++ t.APIVersion ++ ",\x7d"

/-- The Kubernetes `types.NamespacedName`. -/
structure NamespacedName where
  Name : String
  Namespace : String
  deriving DecidableEq, Repr

/-- The text `NamespacedName.String()` gives: namespace, a slash, name. -/
def NamespacedName.String (n : NamespacedName) : String :=
  n.Namespace ++ "/" ++ n.Name

/-- The Kubernetes `rbac.Subject`. -/
structure Subject where
  Kind : String
  APIGroup : String
  Name : String
  deriving DecidableEq, Repr

/-- The Kubernetes `rbac.RoleRef`. -/
structure RoleRef where
  APIGroup : String
  Kind : String
  Name : String
  deriving DecidableEq, Repr

/-- The fields of `rbac.RoleBinding` the code sets. -/
structure RoleBinding where
  TypeMeta : TypeMeta
  Name : String
  Namespace : String
  Labels : List (String × String)
  Subjects : List Subject
  RoleRef : RoleRef
  deriving DecidableEq, Repr

/-- A call made by `EnsureAdminRoleBinding` on the object store client. -/
inductive ClientCall where
  | Get (key : NamespacedName)
  | Create (rb : RoleBinding)
  deriving DecidableEq, Repr

/-- The outcomes of the object store client within one call of
`EnsureAdminRoleBinding`: the errors returned by `r.Get` and by `r.Create`. -/
structure ClientEnv where
  Get : Option GoError
  Create : Option GoError
  deriving DecidableEq, Repr

/-- What `EnsureAdminRoleBinding` leaves behind: the calls made, the status of
the Paas, the error returned. -/
structure EnsureOut where
  calls : List ClientCall
  status : PaasStatus
  err : Option GoError
  deriving DecidableEq, Repr

/-- The function `EnsureAdminRoleBinding` (rolebindings_controller.go, 16-50);
`status` is `paas.Status`. -/
def EnsureAdminRoleBinding (env : ClientEnv) (status : PaasStatus) (rb : RoleBinding) :
    EnsureOut :=
  let namespacedName : NamespacedName := { Name := rb.Name, Namespace := rb.Namespace }
  let calls := [ClientCall.Get namespacedName]
  match env.Get with
  | some err =>
    if err.isNotFound then
      let calls := calls ++ [ClientCall.Create rb]
      match env.Create with
      | some err =>
        { calls := calls,
          status := status.AddMessage "ERROR" "create" rb.TypeMeta.String
            namespacedName.String err.text,
          err := some err }
      | none =>
        { calls := calls,
          status := status.AddMessage "INFO" "create" rb.TypeMeta.String
            namespacedName.String "succeeded",
          err := none }
    else
      { calls := calls,
        status := status.AddMessage "ERROR" "find" rb.TypeMeta.String
          namespacedName.String err.text,
        err := some err }
  | none =>
    { calls := calls,
      status := status.AddMessage "INFO" "create" rb.TypeMeta.String
        namespacedName.String "already existed",
      err := none }

/-- What `BackendEnabledRoleBindings` reads of a Paas.  The helpers
`ClonedLabels`, `Spec.Groups.AsGroups().Keys()` and `Spec.Capabilities.AsMap()`
are declared outside the files at hand and are taken by their results;
`Capabilities` lists the entries of the map in the order `range` visits them,
which Go leaves open. -/
structure PaasView (Cap : Type) where
  Name : String
  ClonedLabels : List (String × String)
  GroupKeys : List String
  Capabilities : List (String × Cap)
  Namespaces : List String

/-- The function `backendRoleBinding` (rolebindings_controller.go, 53-91). -/
def backendRoleBinding {Cap : Type} (paas : PaasView Cap) (name : NamespacedName)
    (groups : List String) : RoleBinding :=
  let subjects : List Subject :=
    groups.foldl
      (fun subjects g =>
        subjects ++ [{ Kind := "Group", APIGroup := "rbac.authorization.k8s.io", Name := g }])
      []
  { TypeMeta := { Kind := "RoleBinding", APIVersion := "v1" },
    Name := name.Name,
    Namespace := name.Namespace,
    Labels := paas.ClonedLabels,
    Subjects := subjects,
    RoleRef := { APIGroup := "rbac.authorization.k8s.io", Kind := "ClusterRole", Name := "admin" } }

/-- The function `BackendEnabledRoleBindings` (rolebindings_controller.go,
93-115); `IsEnabled` is the method of the capability type, declared outside the
files at hand. -/
def BackendEnabledRoleBindings {Cap : Type} (IsEnabled : Cap → Bool) (paas : PaasView Cap) :
    List RoleBinding :=
  let groupKeys := paas.GroupKeys
  let rb : List RoleBinding :=
    paas.Capabilities.foldl
      (fun rb entry =>
        if IsEnabled entry.2 then
          let name : NamespacedName :=
            { Name := "paas-admin", Namespace := paas.Name ++ "-" ++ entry.1 }
          rb ++ [backendRoleBinding paas name groupKeys]
        else rb)
      []
  paas.Namespaces.foldl
    (fun rb ns_suffix =>
      let name : NamespacedName :=
        { Name := "paas-admin", Namespace := paas.Name ++ "-" ++ ns_suffix }
      rb ++ [backendRoleBinding paas name groupKeys])
    rb

/-! ## Vocabulary of the statements -/

/-- The teardown calls of a trace, in order. -/
def finalizeCalls (tr : List Call) : List FinalizeCall :=
  tr.filterMap (fun c => match c with
    | .Finalize f => some f
    | _ => none)

/-- The pipeline steps called in a trace, in order. -/
def stepCalls (tr : List Call) : List PipelineStep :=
  tr.filterMap (fun c => match c with
    | .Step s => some s
    | _ => none)

/-- The finalizer sets handed to `r.Update` in a trace, in order. -/
def updateCalls (tr : List Call) : List (List String) :=
  tr.filterMap (fun c => match c with
    | .Update fs => some fs
    | _ => none)

/-- The statuses handed to `r.Status().Update` in a trace, in order. -/
def statusUpdateCalls (tr : List Call) : List PaasStatus :=
  tr.filterMap (fun c => match c with
    | .StatusUpdate st => some st
    | _ => none)

/-- Whether a teardown call is a call of `FinalizeLdapGroups`. -/
def isLdapCall : FinalizeCall → Bool
  | .FinalizeLdapGroups _ => true
  | _ => false

/-- The seven teardown calls in the order of `finalizePaaS`, the argument of
`FinalizeLdapGroups` being `cleaned`. -/
def teardownOrder (cleaned : List String) : List FinalizeCall :=
  [.FinalizeAppSetCaps, .FinalizeAppProject, .FinalizeClusterQuotas, .FinalizeGroups,
   .FinalizeLdapGroups cleaned, .FinalizeExtraClusterRoleBindings,
   .FinalizeClusterWideQuotas]

/-- The seven pipeline steps in the order of `Reconcile`. -/
def pipelineOrder : List PipelineStep :=
  [.ReconcileQuotas, .ReconcileClusterWideQuota, .ReconcilePaasNss, .EnsureAppProject,
   .ReconcileGroups, .EnsureLdapGroups, .ReconcileRolebindings]

/-- How many teardown calls a fail-fast chain makes: it stops at the first
failing call, and a failing `FinalizeGroups` is still followed by
`FinalizeLdapGroups`. -/
def stopsAfter (env : Env) : Nat :=
  if (env.finalize .FinalizeAppSetCaps).isSome then 1
  else if (env.finalize .FinalizeAppProject).isSome then 2
  else if (env.finalize .FinalizeClusterQuotas).isSome then 3
  else if (env.finalize .FinalizeGroups).isSome then 5
  else if (env.finalize (.FinalizeLdapGroups env.cleanedLdapQueries)).isSome then 5
  else if (env.finalize .FinalizeExtraClusterRoleBindings).isSome then 6
  else 7

/-- The steps a fail-fast run over a list of steps calls: those up to and
including the first one that returns an error. -/
def invoked (env : Env) : List PipelineStep → List PipelineStep
  | [] => []
  | s :: rest => if (env.step s).err.isSome then [s] else s :: invoked env rest

/-- Whether every step of the list succeeds. -/
def allSucceed (env : Env) (l : List PipelineStep) : Bool :=
  l.all (fun s => (env.step s).err.isNone)

/-- The final message of a successful pass on the Paas `p`. -/
def succeededMessage (p : Paas) : StatusMessage :=
  { severity := "INFO", operation := "reconcile", targetKind := p.Kind,
    targetIdentifier := p.Name, detail := "succeeded" }

/-- The messages the steps of a list append, in the order of the list. -/
def messagesOf (env : Env) (l : List PipelineStep) : List StatusMessage :=
  l.flatMap (fun s => (env.step s).messages)

/-- The calls `GetPaas` makes for an active Paas before the pipeline starts:
the lookup, and the registration of the finalizer when the token is missing. -/
def registration (req : Request) (p : Paas) : List Call :=
  if ContainsFinalizer p paasFinalizer then [Call.Get req.Name]
  else [Call.Get req.Name, Call.Update (p.Finalizers ++ [paasFinalizer])]

/-- An error that is not a not-found error. -/
def errBoom : GoError := { isNotFound := false, text := "boom" }

/-- Whether `GetPaas` hands a Paas to the pipeline: the object is found, it is
active, and its finalizer token is present or its registration succeeds. -/
def reachesPipeline (env : Env) : Bool :=
  match env.Get with
  | .ok p => p.DeletionTimestamp.isNone && (ContainsFinalizer p paasFinalizer || env.Update.isNone)
  | .error _ => false

/-- A request for the Paas named demo. -/
def reqDemo : Request := { Namespace := "", Name := "demo" }

/-- An active Paas without finalizers, with one message left by an earlier pass. -/
def paasFresh : Paas :=
  { Kind := "Paas", Name := "demo", DeletionTimestamp := none, Finalizers := [],
    Status :=
      { Messages :=
          [{ severity := "INFO", operation := "create", targetKind := "Namespace",
             targetIdentifier := "demo-a", detail := "old pass" }] } }

/-- A Paas marked for deletion that carries the finalizer token. -/
def paasDeleting : Paas :=
  { paasFresh with DeletionTimestamp := some 1700000000,
                   Finalizers := ["other/finalizer", paasFinalizer] }

/-- A pass over `paasFresh` in which the registration of the finalizer
fails. -/
def envRegistrationFails : Env :=
  { Get := .ok paasFresh, Update := some errBoom, StatusUpdate := none,
    step := fun _ => { messages := [], err := none },
    finalize := fun _ => none, cleanedLdapQueries := [] }

/-- A pass over `paasDeleting` in which only `FinalizeLdapGroups` fails. -/
def envLdapFails : Env :=
  { Get := .ok paasDeleting, Update := none, StatusUpdate := none,
    step := fun _ => { messages := [], err := none },
    finalize := fun c => if isLdapCall c then some errBoom else none,
    cleanedLdapQueries := ["A"] }

/-- A pass over `paasFresh` in which `ReconcilePaasNss` fails after appending
an ERROR message, every other step appends one INFO message and succeeds, and
the status update succeeds. -/
def envNssFails : Env :=
  { Get := .ok paasFresh, Update := none, StatusUpdate := none,
    step := fun s =>
      if s = .ReconcilePaasNss then
        { messages :=
            [{ severity := "ERROR", operation := "create", targetKind := "Namespace",
               targetIdentifier := "demo-a", detail := "boom" }],
          err := some errBoom }
      else
        { messages :=
            [{ severity := "INFO", operation := "create", targetKind := "Quota",
               targetIdentifier := "demo", detail := "succeeded" }],
          err := none },
    finalize := fun _ => none, cleanedLdapQueries := [] }

/-- A pass over `paasFresh` in which every step appends one INFO message and
succeeds, and the status update fails. -/
def envStatusUpdateFails : Env :=
  { Get := .ok paasFresh, Update := none, StatusUpdate := some errBoom,
    step := fun _ =>
      { messages :=
          [{ severity := "INFO", operation := "create", targetKind := "Quota",
             targetIdentifier := "demo", detail := "succeeded" }],
        err := none },
    finalize := fun _ => none, cleanedLdapQueries := [] }

/-- A pass in which `FinalizeAppSetCaps` fails and every other call succeeds. -/
def envAppSetCapsFails : Env :=
  { Get := .error errBoom, Update := none, StatusUpdate := none,
    step := fun _ => { messages := [], err := none },
    finalize := fun c => if c = .FinalizeAppSetCaps then some errBoom else none,
    cleanedLdapQueries := [] }

/-- A pass in which `FinalizeGroups` cleans A and B and fails (on C), and
`FinalizeLdapGroups` fails as well. -/
def envGroupsFail : Env :=
  { Get := .error errBoom, Update := none, StatusUpdate := none,
    step := fun _ => { messages := [], err := none },
    finalize := fun c =>
      if c = .FinalizeGroups then some { isNotFound := false, text := "group C" }
      else if c = .FinalizeLdapGroups ["A", "B"] then some { isNotFound := false, text := "ldap" }
      else none,
    cleanedLdapQueries := ["A", "B"] }

/-- A RoleBinding as `BackendEnabledRoleBindings` builds it for the namespace
`ns`, for a Paas without labels and with the group keys `groups`. -/
def adminBindingFor (ns : String) (groups : List String) : RoleBinding :=
  { TypeMeta := { Kind := "RoleBinding", APIVersion := "v1" },
    Name := "paas-admin", Namespace := ns, Labels := [],
    Subjects := groups.map
      (fun g => { Kind := "Group", APIGroup := "rbac.authorization.k8s.io", Name := g }),
    RoleRef := { APIGroup := "rbac.authorization.k8s.io", Kind := "ClusterRole",
                 Name := "admin" } }

/-- A Paas with two namespaces, two groups, one enabled and one disabled
capability; a capability is modelled by its enabled flag. -/
def paasTwoNamespaces : PaasView Bool :=
  { Name := "demo", ClonedLabels := [], GroupKeys := ["devs", "ops"],
    Capabilities := [("sso", false), ("argocd", true)],
    Namespaces := ["a", "b"] }

/-- A lookup that reports not-found, followed by a creation that fails. -/
def clientCreateFails : ClientEnv :=
  { Get := some { isNotFound := true, text := "not found" }, Create := some errBoom }

/-! ## `finalizePaaS`: lemmas -/

/-- The calls of `finalizePaaS` are appended to the trace it is given. -/
theorem finalizePaaS_append (env : Env) (tr : List Call) :
    finalizePaaS env tr = (tr ++ (finalizePaaS env []).1, (finalizePaaS env []).2) := by
  unfold finalizePaaS
  cases h1 : env.finalize .FinalizeAppSetCaps <;>
  cases h2 : env.finalize .FinalizeAppProject <;>
  cases h3 : env.finalize .FinalizeClusterQuotas <;>
  cases h4 : env.finalize .FinalizeGroups <;>
  cases h5 : env.finalize (.FinalizeLdapGroups env.cleanedLdapQueries) <;>
  cases h6 : env.finalize .FinalizeExtraClusterRoleBindings <;>
  cases h7 : env.finalize .FinalizeClusterWideQuotas <;>
  simp [h1, h2, h3, h4, h5, h6, h7]

/-- The trace of `finalizePaaS` is the prefix of the teardown order given by
`stopsAfter`. -/
theorem finalizePaaS_trace (env : Env) :
    (finalizePaaS env []).1 =
      ((teardownOrder env.cleanedLdapQueries).take (stopsAfter env)).map Call.Finalize := by
  unfold finalizePaaS stopsAfter teardownOrder
  cases h1 : env.finalize .FinalizeAppSetCaps <;>
  cases h2 : env.finalize .FinalizeAppProject <;>
  cases h3 : env.finalize .FinalizeClusterQuotas <;>
  cases h4 : env.finalize .FinalizeGroups <;>
  cases h5 : env.finalize (.FinalizeLdapGroups env.cleanedLdapQueries) <;>
  cases h6 : env.finalize .FinalizeExtraClusterRoleBindings <;>
  cases h7 : env.finalize .FinalizeClusterWideQuotas <;>
  simp [h1, h2, h3, h4, h5, h6, h7]

/-- The chain returns `nil` exactly when each call it made succeeded. -/
theorem finalizePaaS_err_none_iff (env : Env) :
    (finalizePaaS env []).2 = none ↔
      ∀ c ∈ finalizeCalls (finalizePaaS env []).1, env.finalize c = none := by
  unfold finalizePaaS finalizeCalls
  cases h1 : env.finalize .FinalizeAppSetCaps <;>
  cases h2 : env.finalize .FinalizeAppProject <;>
  cases h3 : env.finalize .FinalizeClusterQuotas <;>
  cases h4 : env.finalize .FinalizeGroups <;>
  cases h5 : env.finalize (.FinalizeLdapGroups env.cleanedLdapQueries) <;>
  cases h6 : env.finalize .FinalizeExtraClusterRoleBindings <;>
  cases h7 : env.finalize .FinalizeClusterWideQuotas <;>
  simp [h1, h2, h3, h4, h5, h6, h7]

/-! ## The pipeline: lemmas -/

/-- When the first failing step of a list is at position `k`, a fail-fast run
calls the first `k + 1` steps. -/
theorem invoked_eq_take (env : Env) :
    ∀ (l : List PipelineStep) (k : Nat) (s : PipelineStep), l[k]? = some s →
      (∀ j t, j < k → l[j]? = some t → (env.step t).err = none) →
      (env.step s).err ≠ none → invoked env l = l.take (k + 1) := by
  intro l
  induction l with
  | nil => intro k s hk; simp at hk
  | cons a rest ih =>
    intro k s hk hprev hs
    cases k with
    | zero =>
      simp at hk
      subst hk
      cases h : (env.step a).err with
      | none => exact absurd h hs
      | some e => simp [invoked, h]
    | succ k =>
      have ha : (env.step a).err = none := hprev 0 a (Nat.succ_pos k) (by simp)
      have hk2 : rest[k]? = some s := by simpa using hk
      have := ih k s hk2
        (fun j t hj ht => hprev (j + 1) t (Nat.succ_lt_succ hj) (by simpa using ht)) hs
      simp [invoked, ha, this]

/-- When every step of a list succeeds, a fail-fast run calls them all. -/
theorem invoked_eq_self (env : Env) :
    ∀ (l : List PipelineStep), (∀ s ∈ l, (env.step s).err = none) → invoked env l = l := by
  intro l
  induction l with
  | nil => intro _; rfl
  | cons a rest ih =>
    intro h
    have ha : (env.step a).err = none := h a (by simp)
    have := ih (fun s hs => h s (by simp [hs]))
    simp [invoked, ha, this]

/-- When the first failing step of a list is at position `k`, not every step
succeeds. -/
theorem allSucceed_false (env : Env) (l : List PipelineStep) (k : Nat) (s : PipelineStep)
    (hk : l[k]? = some s) (hs : (env.step s).err ≠ none) : allSucceed env l = false := by
  have hmem : s ∈ l := List.getElem?_mem hk
  cases h : allSucceed env l with
  | false => rfl
  | true =>
    simp only [allSucceed, List.all_eq_true] at h
    have := h s hmem
    cases h2 : (env.step s).err with
    | none => exact absurd h2 hs
    | some e => simp [h2] at this

/-- The body of `Reconcile` calls the steps fail-fast in the pipeline order,
appends their messages, and on full success the final message. -/
theorem reconcileBody_spec (env : Env) (st : PassState) :
    (reconcileBody env st).2.2.trace
        = st.trace ++ (invoked env pipelineOrder).map Call.Step
    ∧ (reconcileBody env st).2.2.paas.Status
        = { Messages := st.paas.Status.Messages ++ messagesOf env (invoked env pipelineOrder)
              ++ (if allSucceed env pipelineOrder then [succeededMessage st.paas] else []) }
    ∧ (reconcileBody env st).1
        = (if allSucceed env pipelineOrder then okResult else errResult) := by
  cases h1 : (env.step .ReconcileQuotas).err with
  | some e =>
    simp [reconcileBody, callStep, invoked, pipelineOrder, allSucceed, messagesOf, h1]
  | none =>
  cases h2 : (env.step .ReconcileClusterWideQuota).err with
  | some e =>
    simp [reconcileBody, callStep, invoked, pipelineOrder, allSucceed, messagesOf, h1, h2]
  | none =>
  cases h3 : (env.step .ReconcilePaasNss).err with
  | some e =>
    simp [reconcileBody, callStep, invoked, pipelineOrder, allSucceed, messagesOf, h1, h2, h3]
  | none =>
  cases h4 : (env.step .EnsureAppProject).err with
  | some e =>
    simp [reconcileBody, callStep, invoked, pipelineOrder, allSucceed, messagesOf, h1, h2, h3,
      h4]
  | none =>
  cases h5 : (env.step .ReconcileGroups).err with
  | some e =>
    simp [reconcileBody, callStep, invoked, pipelineOrder, allSucceed, messagesOf, h1, h2, h3,
      h4, h5]
  | none =>
  cases h6 : (env.step .EnsureLdapGroups).err with
  | some e =>
    simp [reconcileBody, callStep, invoked, pipelineOrder, allSucceed, messagesOf, h1, h2, h3,
      h4, h5, h6]
  | none =>
  cases h7 : (env.step .ReconcileRolebindings).err with
  | some e =>
    simp [reconcileBody, callStep, invoked, pipelineOrder, allSucceed, messagesOf, h1, h2, h3,
      h4, h5, h6, h7]
  | none =>
    simp [reconcileBody, callStep, invoked, pipelineOrder, allSucceed, messagesOf, h1, h2, h3,
      h4, h5, h6, h7, succeededMessage, PaasStatus.AddMessageObj, PaasStatus.AddMessage,
      PaasStatusInfo, PaasStatusReconcile]

/-- A pass over an active Paas whose finalizer is registered, or gets
registered, runs the pipeline fail-fast and then issues the status update. -/
theorem Reconcile_active (env : Env) (req : Request) (p : Paas)
    (hget : env.Get = .ok p) (hactive : p.DeletionTimestamp = none)
    (hreg : ContainsFinalizer p paasFinalizer = true ∨ env.Update = none) :
    (Reconcile env req).trace
        = registration req p ++ (invoked env pipelineOrder).map Call.Step
            ++ [Call.StatusUpdate
                { Messages := messagesOf env (invoked env pipelineOrder)
                    ++ (if allSucceed env pipelineOrder then [succeededMessage p] else []) }]
    ∧ (Reconcile env req).err = env.StatusUpdate
    ∧ (Reconcile env req).result
        = (if allSucceed env pipelineOrder then okResult else errResult) := by
  cases hc : ContainsFinalizer p paasFinalizer with
  | true =>
    have hc2 : p.Finalizers.contains paasFinalizer = true := hc
    obtain ⟨h1, h2, h3⟩ := reconcileBody_spec env
      { paas := { p with Status := p.Status.Truncate }, trace := [Call.Get req.Name] }
    simp only [PaasStatus.Truncate] at h1 h2 h3
    simp only [Reconcile, GetPaas, hget, hactive, hc, registration, PaasStatus.Truncate]
    simp [h1, h2, h3, succeededMessage]
  | false =>
    have hu : env.Update = none := by
      rcases hreg with h | h
      · rw [hc] at h; exact absurd h (by decide)
      · exact h
    have hadd : AddFinalizer p paasFinalizer
        = { p with Finalizers := p.Finalizers ++ [paasFinalizer] } := by
      have hc2 : p.Finalizers.contains paasFinalizer = false := hc
      unfold AddFinalizer
      rw [hc2]
      rfl
    obtain ⟨h1, h2, h3⟩ := reconcileBody_spec env
      { paas := { p with Finalizers := p.Finalizers ++ [paasFinalizer],
                         Status := { Messages := [] } },
        trace := [Call.Get req.Name, Call.Update (p.Finalizers ++ [paasFinalizer])] }
    simp only [hactive] at h1 h2 h3
    simp only [Reconcile, GetPaas, hget, hactive, hc, hu, registration, PaasStatus.Truncate,
      hadd]
    simp [h1, h2, h3, succeededMessage]

/-! ## The finalizer chain: statements -/

/-- C2, as stated, fails: when `FinalizeAppSetCaps` fails, `finalizePaaS`
returns its error after that single call; `FinalizeAppProject` and the five
calls after it are not made. -/
theorem finalizePaaS_not_best_effort :
    envAppSetCapsFails.finalize .FinalizeAppSetCaps = some errBoom
    ∧ finalizePaaS envAppSetCapsFails []
        = ([Call.Finalize .FinalizeAppSetCaps], some errBoom)
    ∧ Call.Finalize .FinalizeAppProject ∉ (finalizePaaS envAppSetCapsFails []).1
    ∧ (finalizeCalls (finalizePaaS envAppSetCapsFails []).1).length ≠ 7 := by
  refine ⟨rfl, rfl, ?_, ?_⟩ <;> decide

/-- C2, amended: `finalizePaaS` is fail-fast.  For every assignment of
outcomes it makes the teardown calls in the fixed order, each at most once, and
returns at the first call that fails, with one exception: a failing
`FinalizeGroups` is still followed by one call of `FinalizeLdapGroups`.  All
seven calls are made exactly when none of the first six fails. -/
theorem finalizePaaS_fail_fast (env : Env) :
    finalizeCalls (finalizePaaS env []).1
        = (teardownOrder env.cleanedLdapQueries).take (stopsAfter env)
    ∧ (finalizeCalls (finalizePaaS env []).1).Nodup
    ∧ (finalizeCalls (finalizePaaS env []).1 = teardownOrder env.cleanedLdapQueries ↔
        env.finalize .FinalizeAppSetCaps = none ∧ env.finalize .FinalizeAppProject = none
        ∧ env.finalize .FinalizeClusterQuotas = none ∧ env.finalize .FinalizeGroups = none
        ∧ env.finalize (.FinalizeLdapGroups env.cleanedLdapQueries) = none
        ∧ env.finalize .FinalizeExtraClusterRoleBindings = none) := by
  rw [finalizePaaS_trace]
  unfold finalizeCalls stopsAfter teardownOrder
  cases h1 : env.finalize .FinalizeAppSetCaps <;>
  cases h2 : env.finalize .FinalizeAppProject <;>
  cases h3 : env.finalize .FinalizeClusterQuotas <;>
  cases h4 : env.finalize .FinalizeGroups <;>
  cases h5 : env.finalize (.FinalizeLdapGroups env.cleanedLdapQueries) <;>
  cases h6 : env.finalize .FinalizeExtraClusterRoleBindings <;>
  simp

/-- C3: whenever `finalizePaaS` reaches `FinalizeGroups`, whatever error value
that call returns, `FinalizeLdapGroups` is called exactly once in the pass and
its argument is exactly the cleaned subset `FinalizeGroups` returned; and when
`FinalizeGroups` fails, `finalizePaaS` returns the error of `FinalizeGroups`
(also when `FinalizeLdapGroups` fails too). -/
theorem finalizePaaS_ldap_coupling (env : Env)
    (hreached : Call.Finalize .FinalizeGroups ∈ (finalizePaaS env []).1) :
    (finalizeCalls (finalizePaaS env []).1).filter isLdapCall
        = [.FinalizeLdapGroups env.cleanedLdapQueries]
    ∧ ∀ e, env.finalize .FinalizeGroups = some e → (finalizePaaS env []).2 = some e := by
  revert hreached
  unfold finalizePaaS finalizeCalls
  cases h1 : env.finalize .FinalizeAppSetCaps <;>
  cases h2 : env.finalize .FinalizeAppProject <;>
  cases h3 : env.finalize .FinalizeClusterQuotas <;>
  cases h4 : env.finalize .FinalizeGroups <;>
  cases h5 : env.finalize (.FinalizeLdapGroups env.cleanedLdapQueries) <;>
  cases h6 : env.finalize .FinalizeExtraClusterRoleBindings <;>
  cases h7 : env.finalize .FinalizeClusterWideQuotas <;>
  simp [h1, h2, h3, h4, h5, h6, h7, isLdapCall]

/-- C3 at the example of the claim: group removal cleans A and B and fails on
C; the LDAP-group cleanup is called once, with A and B, and the error returned
is the one of the group removal. -/
theorem finalizePaaS_ldap_coupling_witness :
    Call.Finalize .FinalizeGroups ∈ (finalizePaaS envGroupsFail []).1
    ∧ (finalizeCalls (finalizePaaS envGroupsFail []).1).filter isLdapCall
        = [.FinalizeLdapGroups ["A", "B"]]
    ∧ (finalizePaaS envGroupsFail []).2 = some { isNotFound := false, text := "group C" } :=
  have h : Call.Finalize .FinalizeGroups ∈ (finalizePaaS envGroupsFail []).1 := by decide
  ⟨h, (finalizePaaS_ldap_coupling envGroupsFail h).1,
    (finalizePaaS_ldap_coupling envGroupsFail h).2 _ rfl⟩

/-! ## The deletion path -/

/-- The teardown calls of a list of teardown calls are the list itself. -/
theorem finalizeCalls_map (l : List FinalizeCall) :
    finalizeCalls (l.map Call.Finalize) = l := by
  induction l with
  | nil => rfl
  | cons a rest ih =>
    simp only [finalizeCalls, List.map_cons, List.filterMap_cons] at ih ⊢
    rw [ih]

/-- A teardown call is no call of `r.Update`. -/
theorem updateCalls_map (l : List FinalizeCall) :
    updateCalls (l.map Call.Finalize) = [] := by
  induction l with
  | nil => rfl
  | cons a rest ih =>
    simp only [updateCalls, List.map_cons, List.filterMap_cons] at ih ⊢
    rw [ih]

/-- A pass over a Paas that is marked for deletion and carries the token: the
lookup, the finalizer chain, and the `Update` only after a chain that returned
`nil`. -/
theorem Reconcile_deleting (env : Env) (req : Request) (p : Paas)
    (hget : env.Get = .ok p) (hdel : p.DeletionTimestamp.isSome = true)
    (htok : ContainsFinalizer p paasFinalizer = true) :
    (Reconcile env req).trace
        = [Call.Get req.Name] ++ (finalizePaaS env []).1
            ++ (if (finalizePaaS env []).2 = none
                then [Call.Update (p.Finalizers.filter (fun e => e != paasFinalizer))] else [])
    ∧ (GetPaas env req []).obj.Finalizers
        = (if (finalizePaaS env []).2 = none
           then p.Finalizers.filter (fun e => e != paasFinalizer) else p.Finalizers)
    ∧ (Reconcile env req).err
        = (match (finalizePaaS env []).2 with
           | some e => some e
           | none => env.Update)
    ∧ ((finalizePaaS env []).2 ≠ none → (Reconcile env req).result = errResult) := by
  simp only [Reconcile, GetPaas, hget, hdel, htok]
  rw [finalizePaaS_append]
  cases hf : (finalizePaaS env []) with
  | mk tr e =>
    cases e <;> cases hu : env.Update <;> simp [RemoveFinalizer]

/-- C4: for a Paas that carries a deletion timestamp and the finalizer token,
`finalizePaaS` returns `nil` exactly when every teardown call made succeeded;
the token is removed and the `Update` of the object is issued exactly in that
case.  When a teardown call made returned an error (`FinalizeLdapGroups`
included), `finalizePaaS` returns a non-nil error, the finalizer set is
unchanged, no `Update` is issued, and `Reconcile` returns the retry result
(Requeue, after 10 seconds) with that error. -/
theorem Reconcile_finalizer_token (env : Env) (req : Request) (p : Paas)
    (hget : env.Get = .ok p) (hdel : p.DeletionTimestamp.isSome = true)
    (htok : ContainsFinalizer p paasFinalizer = true) :
    ((finalizePaaS env []).2 = none ↔
        ∀ c ∈ finalizeCalls (Reconcile env req).trace, env.finalize c = none)
    ∧ ((updateCalls (Reconcile env req).trace
            = [p.Finalizers.filter (fun e => e != paasFinalizer)]
          ∧ (GetPaas env req []).obj.Finalizers
            = p.Finalizers.filter (fun e => e != paasFinalizer)) ↔
        ∀ c ∈ finalizeCalls (Reconcile env req).trace, env.finalize c = none)
    ∧ paasFinalizer ∉ p.Finalizers.filter (fun e => e != paasFinalizer)
    ∧ ((∃ c ∈ finalizeCalls (Reconcile env req).trace, env.finalize c ≠ none) →
        (finalizePaaS env []).2 ≠ none
        ∧ (GetPaas env req []).obj.Finalizers = p.Finalizers
        ∧ updateCalls (Reconcile env req).trace = []
        ∧ (Reconcile env req).result = { Requeue := true, RequeueAfter := 10 * 1000000000 }
        ∧ (Reconcile env req).err = (finalizePaaS env []).2) := by
  obtain ⟨htr, hobj, herr, hres⟩ := Reconcile_deleting env req p hget hdel htok
  have hiff := finalizePaaS_err_none_iff env
  have hpos : paasFinalizer ∈ p.Finalizers := by
    simpa [ContainsFinalizer] using htok
  have hcalls : finalizeCalls (Reconcile env req).trace
      = finalizeCalls (finalizePaaS env []).1 := by
    rw [htr, finalizePaaS_trace]
    simp only [finalizeCalls, List.filterMap_append]
    split <;> simp
  have hupd : updateCalls (Reconcile env req).trace
      = (if (finalizePaaS env []).2 = none
         then [p.Finalizers.filter (fun e => e != paasFinalizer)] else []) := by
    rw [htr, finalizePaaS_trace]
    have := updateCalls_map
      ((teardownOrder env.cleanedLdapQueries).take (stopsAfter env))
    simp only [updateCalls, List.filterMap_append] at this ⊢
    rw [this]
    split <;> simp
  rw [hcalls, ← hiff]
  have hne : p.Finalizers.filter (fun e => e != paasFinalizer) ≠ p.Finalizers := by
    intro h
    have : paasFinalizer ∈ p.Finalizers.filter (fun e => e != paasFinalizer) := by
      rw [h]; exact hpos
    simp at this
  refine ⟨Iff.rfl, ?_, by simp, ?_⟩
  · rw [hupd, hobj]
    cases hf : (finalizePaaS env []).2 with
    | none => simp
    | some e => simp
  · intro hex
    have hnn : (finalizePaaS env []).2 ≠ none := by
      intro h
      obtain ⟨c, hc, hce⟩ := hex
      exact hce (hiff.mp h c hc)
    refine ⟨hnn, ?_, ?_, hres hnn, ?_⟩
    · rw [hobj, if_neg hnn]
    · rw [hupd, if_neg hnn]
    · rw [herr]
      cases hf : (finalizePaaS env []).2 with
      | none => exact absurd hf hnn
      | some e => rfl

/-- C4 at a pass where only `FinalizeLdapGroups` fails: the chain returns an
error, both finalizers stay, no `Update` is issued, the retry result is
returned. -/
theorem Reconcile_finalizer_token_witness :
    envLdapFails.Get = .ok paasDeleting
    ∧ (finalizePaaS envLdapFails []).2 ≠ none
    ∧ (GetPaas envLdapFails reqDemo []).obj.Finalizers = ["other/finalizer", paasFinalizer]
    ∧ updateCalls (Reconcile envLdapFails reqDemo).trace = []
    ∧ (Reconcile envLdapFails reqDemo).result = { Requeue := true, RequeueAfter := 10000000000 }
    ∧ (Reconcile envLdapFails reqDemo).err = (finalizePaaS envLdapFails []).2 :=
  ⟨rfl,
    (Reconcile_finalizer_token envLdapFails reqDemo paasDeleting rfl rfl (by decide)).2.2.2
      ⟨.FinalizeLdapGroups ["A"], by decide, by decide⟩⟩

/-! ## The active path -/

/-- The pipeline steps of a list of step calls are the list itself. -/
theorem stepCalls_map (l : List PipelineStep) : stepCalls (l.map Call.Step) = l := by
  induction l with
  | nil => rfl
  | cons a rest ih =>
    simp only [stepCalls, List.map_cons, List.filterMap_cons] at ih ⊢
    rw [ih]

/-- A step call is no status update. -/
theorem statusUpdateCalls_map_step (l : List PipelineStep) :
    statusUpdateCalls (l.map Call.Step) = [] := by
  induction l with
  | nil => rfl
  | cons a rest ih =>
    simp only [statusUpdateCalls, List.map_cons, List.filterMap_cons] at ih ⊢
    rw [ih]

/-- A teardown call is no status update. -/
theorem statusUpdateCalls_map_finalize (l : List FinalizeCall) :
    statusUpdateCalls (l.map Call.Finalize) = [] := by
  induction l with
  | nil => rfl
  | cons a rest ih =>
    simp only [statusUpdateCalls, List.map_cons, List.filterMap_cons] at ih ⊢
    rw [ih]

/-- A step is called in a trace exactly when it is among its step calls. -/
theorem mem_stepCalls (tr : List Call) (s : PipelineStep) :
    s ∈ stepCalls tr ↔ Call.Step s ∈ tr := by
  induction tr with
  | nil => simp [stepCalls]
  | cons c rest ih =>
    cases c <;> simp_all [stepCalls]

/-- The registration makes no step call and no status update. -/
theorem registration_calls (req : Request) (p : Paas) :
    stepCalls (registration req p) = [] ∧ statusUpdateCalls (registration req p) = [] := by
  unfold registration
  split <;> simp [stepCalls, statusUpdateCalls]

/-- Every step succeeds exactly when the seven steps of the pipeline do. -/
theorem allSucceed_iff (env : Env) :
    allSucceed env pipelineOrder = true ↔ ∀ s, (env.step s).err = none := by
  constructor
  · intro h s
    simp only [allSucceed, List.all_eq_true] at h
    have hs : s ∈ pipelineOrder := by cases s <;> simp [pipelineOrder]
    simpa using h s hs
  · intro h
    simp only [allSucceed, List.all_eq_true]
    intro s _
    simp [h s]

/-- A step behind position `k` of the pipeline is not among the first `k + 1`
steps. -/
theorem pipelineOrder_later (k j : Nat) (t : PipelineStep) (hkj : k < j)
    (ht : pipelineOrder[j]? = some t) : t ∉ pipelineOrder.take (k + 1) := by
  have hj : j < 7 := by
    have := (List.getElem?_eq_some.mp ht).1
    simpa [pipelineOrder] using this
  have hk : k < 7 := by omega
  interval_cases j <;> interval_cases k <;> simp [pipelineOrder] at ht hkj ⊢ <;>
    subst ht <;> simp

/-- The step calls and the status updates of a pass that reaches the pipeline. -/
theorem Reconcile_active_calls (env : Env) (req : Request) (p : Paas)
    (hget : env.Get = .ok p) (hactive : p.DeletionTimestamp = none)
    (hreg : ContainsFinalizer p paasFinalizer = true ∨ env.Update = none) :
    stepCalls (Reconcile env req).trace = invoked env pipelineOrder
    ∧ statusUpdateCalls (Reconcile env req).trace
        = [{ Messages := messagesOf env (invoked env pipelineOrder)
              ++ (if allSucceed env pipelineOrder then [succeededMessage p] else []) }] := by
  obtain ⟨htr, _, _⟩ := Reconcile_active env req p hget hactive hreg
  obtain ⟨hr1, hr2⟩ := registration_calls req p
  have h1 := stepCalls_map (invoked env pipelineOrder)
  have h2 := statusUpdateCalls_map_step (invoked env pipelineOrder)
  rw [htr]
  simp only [stepCalls, statusUpdateCalls, List.filterMap_append] at hr1 hr2 h1 h2 ⊢
  rw [hr1, hr2, h1, h2]
  simp

/-- C1: for an active Paas that was loaded (and whose finalizer is, or gets,
registered), `Reconcile` calls the pipeline steps in the order ReconcileQuotas,
ReconcileClusterWideQuota, ReconcilePaasNss, EnsureAppProject, ReconcileGroups,
EnsureLdapGroups, ReconcileRolebindings; and when the step at position `k` is
the first to return an error, exactly the steps up to and including it are
called, each once and in that order, no later step is called (so
ReconcileRolebindings is never called after a failure of an earlier step), and
the result is Requeue with RequeueAfter 10 seconds. -/
theorem Reconcile_pipeline_order (env : Env) (req : Request) (p : Paas)
    (hget : env.Get = .ok p) (hactive : p.DeletionTimestamp = none)
    (hreg : ContainsFinalizer p paasFinalizer = true ∨ env.Update = none) :
    ((∀ s, (env.step s).err = none) →
        stepCalls (Reconcile env req).trace
          = [.ReconcileQuotas, .ReconcileClusterWideQuota, .ReconcilePaasNss,
             .EnsureAppProject, .ReconcileGroups, .EnsureLdapGroups, .ReconcileRolebindings])
    ∧ ∀ k s, pipelineOrder[k]? = some s →
        (∀ j t, j < k → pipelineOrder[j]? = some t → (env.step t).err = none) →
        (env.step s).err ≠ none →
          stepCalls (Reconcile env req).trace = pipelineOrder.take (k + 1)
          ∧ (∀ j t, k < j → pipelineOrder[j]? = some t →
              Call.Step t ∉ (Reconcile env req).trace)
          ∧ (s ≠ .ReconcileRolebindings →
              Call.Step .ReconcileRolebindings ∉ (Reconcile env req).trace)
          ∧ (Reconcile env req).result
              = { Requeue := true, RequeueAfter := 10 * 1000000000 } := by
  obtain ⟨hsteps, _⟩ := Reconcile_active_calls env req p hget hactive hreg
  obtain ⟨_, _, hres⟩ := Reconcile_active env req p hget hactive hreg
  refine ⟨?_, ?_⟩
  · intro hall
    rw [hsteps, invoked_eq_self env pipelineOrder (fun s _ => hall s)]
    rfl
  · intro k s hk hprev hs
    have htake := invoked_eq_take env pipelineOrder k s hk hprev hs
    have hlater : ∀ j t, k < j → pipelineOrder[j]? = some t →
        Call.Step t ∉ (Reconcile env req).trace := by
      intro j t hkj ht hmem
      have := (mem_stepCalls _ t).mpr hmem
      rw [hsteps, htake] at this
      exact pipelineOrder_later k j t hkj ht this
    refine ⟨by rw [hsteps, htake], hlater, ?_, ?_⟩
    · intro hne
      have hk7 : k < 7 := by
        have := (List.getElem?_eq_some.mp hk).1
        simpa [pipelineOrder] using this
      have hk6 : k < 6 := by
        rcases Nat.lt_or_ge k 6 with h | h
        · exact h
        · have : k = 6 := by omega
          subst this
          simp [pipelineOrder] at hk
          exact absurd hk.symm hne
      exact hlater 6 .ReconcileRolebindings hk6 rfl
    · rw [hres, allSucceed_false env pipelineOrder k s hk hs]
      rfl

/-- C1 at a pass where ReconcilePaasNss, the third step, is the first to fail:
three steps are called, EnsureAppProject and ReconcileRolebindings are not, and
the retry result is returned. -/
theorem Reconcile_pipeline_order_witness :
    envNssFails.Get = .ok paasFresh
    ∧ stepCalls (Reconcile envNssFails reqDemo).trace
        = [.ReconcileQuotas, .ReconcileClusterWideQuota, .ReconcilePaasNss]
    ∧ Call.Step .ReconcileRolebindings ∉ (Reconcile envNssFails reqDemo).trace
    ∧ (Reconcile envNssFails reqDemo).result = { Requeue := true, RequeueAfter := 10000000000 } :=
  have h := (Reconcile_pipeline_order envNssFails reqDemo paasFresh rfl rfl (Or.inr rfl)).2
    2 .ReconcilePaasNss rfl
    (by
      intro j t hj ht
      interval_cases j <;> simp [pipelineOrder] at ht <;> subst ht <;> rfl)
    (by decide)
  ⟨rfl, h.1, h.2.2.1 (by decide), h.2.2.2⟩

/-- C8: the status handed to the status update at the end of a pass that
reaches the pipeline does not depend on the log the Paas was loaded with.  When
all seven steps succeed it is exactly the messages the steps appended in this
pass, in the order of the steps, followed by one INFO reconcile message with
detail "succeeded"; when the step at position `k` is the first to fail it is
exactly the messages appended by the steps called (the failing one included),
without the final message. -/
theorem Reconcile_status_per_pass (env : Env) (req : Request) (p : Paas)
    (hget : env.Get = .ok p) (hactive : p.DeletionTimestamp = none)
    (hreg : ContainsFinalizer p paasFinalizer = true ∨ env.Update = none) :
    ((∀ s, (env.step s).err = none) →
        statusUpdateCalls (Reconcile env req).trace
          = [{ Messages :=
                (env.step .ReconcileQuotas).messages
                  ++ (env.step .ReconcileClusterWideQuota).messages
                  ++ (env.step .ReconcilePaasNss).messages
                  ++ (env.step .EnsureAppProject).messages
                  ++ (env.step .ReconcileGroups).messages
                  ++ (env.step .EnsureLdapGroups).messages
                  ++ (env.step .ReconcileRolebindings).messages
                  ++ [{ severity := "INFO", operation := "reconcile", targetKind := p.Kind,
                        targetIdentifier := p.Name, detail := "succeeded" }] }])
    ∧ ∀ k s, pipelineOrder[k]? = some s →
        (∀ j t, j < k → pipelineOrder[j]? = some t → (env.step t).err = none) →
        (env.step s).err ≠ none →
          statusUpdateCalls (Reconcile env req).trace
            = [{ Messages := messagesOf env (pipelineOrder.take (k + 1)) }] := by
  obtain ⟨_, hst⟩ := Reconcile_active_calls env req p hget hactive hreg
  refine ⟨?_, ?_⟩
  · intro hall
    rw [hst, invoked_eq_self env pipelineOrder (fun s _ => hall s),
      (allSucceed_iff env).mpr hall]
    simp [messagesOf, pipelineOrder, succeededMessage]
  · intro k s hk hprev hs
    rw [hst, invoked_eq_take env pipelineOrder k s hk hprev hs,
      allSucceed_false env pipelineOrder k s hk hs]
    simp

/-- C8 at a pass over a Paas loaded with a message of an earlier pass, where
the third step fails: the status handed over holds the three messages of this
pass and nothing else. -/
theorem Reconcile_status_per_pass_witness :
    paasFresh.Status.Messages.length = 1
    ∧ statusUpdateCalls (Reconcile envNssFails reqDemo).trace
        = [{ Messages :=
              [{ severity := "INFO", operation := "create", targetKind := "Quota",
                 targetIdentifier := "demo", detail := "succeeded" },
               { severity := "INFO", operation := "create", targetKind := "Quota",
                 targetIdentifier := "demo", detail := "succeeded" },
               { severity := "ERROR", operation := "create", targetKind := "Namespace",
                 targetIdentifier := "demo-a", detail := "boom" }] }] :=
  ⟨rfl,
    (Reconcile_status_per_pass envNssFails reqDemo paasFresh rfl rfl (Or.inr rfl)).2
      2 .ReconcilePaasNss rfl
      (by
        intro j t hj ht
        interval_cases j <;> simp [pipelineOrder] at ht <;> subst ht <;> rfl)
      (by decide)⟩

/-- C10: for every pass that reaches the pipeline, the error `Reconcile`
returns is the outcome of the deferred status update, not the one of the
pipeline: a failing step with a successful status update gives the retry
result with a nil error, and a fully successful pipeline with a failing status
update gives Requeue false with the error of the update.  The result returned
does not depend on the outcome of the status update. -/
theorem Reconcile_err_is_status_update (env : Env) (req : Request) (p : Paas)
    (hget : env.Get = .ok p) (hactive : p.DeletionTimestamp = none)
    (hreg : ContainsFinalizer p paasFinalizer = true ∨ env.Update = none) :
    (Reconcile env req).err = env.StatusUpdate
    ∧ (∀ s, (env.step s).err ≠ none → env.StatusUpdate = none →
        (Reconcile env req).result = { Requeue := true, RequeueAfter := 10 * 1000000000 }
        ∧ (Reconcile env req).err = none)
    ∧ (∀ e, (∀ s, (env.step s).err = none) → env.StatusUpdate = some e →
        (Reconcile env req).result = { Requeue := false, RequeueAfter := 0 }
        ∧ (Reconcile env req).err = some e)
    ∧ ∀ o, (Reconcile { env with StatusUpdate := o } req).result
        = (Reconcile env req).result := by
  obtain ⟨_, herr, hres⟩ := Reconcile_active env req p hget hactive hreg
  refine ⟨herr, ?_, ?_, ?_⟩
  · intro s hs hu
    refine ⟨?_, by rw [herr, hu]⟩
    have hfalse : allSucceed env pipelineOrder = false := by
      cases h : allSucceed env pipelineOrder with
      | false => rfl
      | true => exact absurd ((allSucceed_iff env).mp h s) hs
    rw [hres, hfalse]
    rfl
  · intro e hall hu
    refine ⟨?_, by rw [herr, hu]⟩
    rw [hres, (allSucceed_iff env).mpr hall]
    rfl
  · intro o
    obtain ⟨_, _, hres2⟩ := Reconcile_active { env with StatusUpdate := o } req p hget hactive hreg
    rw [hres, hres2]
    rfl

/-- C10 at two passes: a failing step with a successful status update returns
the retry result and no error; seven successful steps with a failing status
update return Requeue false and the error of the update. -/
theorem Reconcile_err_is_status_update_witness :
    ((Reconcile envNssFails reqDemo).result = { Requeue := true, RequeueAfter := 10000000000 }
      ∧ (Reconcile envNssFails reqDemo).err = none)
    ∧ ((Reconcile envStatusUpdateFails reqDemo).result = { Requeue := false, RequeueAfter := 0 }
      ∧ (Reconcile envStatusUpdateFails reqDemo).err = some errBoom) :=
  ⟨(Reconcile_err_is_status_update envNssFails reqDemo paasFresh rfl rfl (Or.inr rfl)).2.1
      .ReconcilePaasNss (by decide) rfl,
   (Reconcile_err_is_status_update envStatusUpdateFails reqDemo paasFresh rfl rfl
      (Or.inr rfl)).2.2.1 errBoom (fun _ => rfl) rfl⟩

/-! ## Registration of the finalizer and the status update -/

/-- C5, as stated, fails: when the `Update` that registers the finalizer fails,
and when the finalizer chain fails, `Reconcile` returns before the deferred
status update exists; the object was found in the store and no status update
is issued. -/
theorem Reconcile_status_update_skipped :
    (envRegistrationFails.Get = .ok paasFresh
      ∧ (Reconcile envRegistrationFails reqDemo).trace
          = [Call.Get "demo", Call.Update [paasFinalizer]]
      ∧ (Reconcile envRegistrationFails reqDemo).err = some errBoom
      ∧ statusUpdateCalls (Reconcile envRegistrationFails reqDemo).trace = [])
    ∧ (envLdapFails.Get = .ok paasDeleting
      ∧ (Reconcile envLdapFails reqDemo).err = some errBoom
      ∧ statusUpdateCalls (Reconcile envLdapFails reqDemo).trace = []) := by
  refine ⟨⟨rfl, ?_, ?_, ?_⟩, rfl, ?_, ?_⟩ <;> decide

/-- C5, amended: `Reconcile` issues exactly one status update on every exit
path behind the point where `GetPaas` has handed over the Paas (the object is
found, active, and its finalizer token is present or was registered), a failing
pipeline step included; on the paths that return before that point (failing
lookup, object marked for deletion whether the finalizer chain fails or not,
failing registration of the finalizer) it issues none. -/
theorem Reconcile_status_update_count (env : Env) (req : Request) :
    (statusUpdateCalls (Reconcile env req).trace).length
      = (if reachesPipeline env then 1 else 0) := by
  cases hget : env.Get with
  | error e =>
    have hr : reachesPipeline env = false := by simp [reachesPipeline, hget]
    rw [hr]
    by_cases hnf : e.isNotFound = true <;>
      simp [Reconcile, GetPaas, hget, hnf, statusUpdateCalls]
  | ok p =>
    cases hdel : p.DeletionTimestamp with
    | some t =>
      have hr : reachesPipeline env = false := by simp [reachesPipeline, hget, hdel]
      rw [hr]
      cases htok : ContainsFinalizer p paasFinalizer with
      | true =>
        obtain ⟨htr, _⟩ := Reconcile_deleting env req p hget (by simp [hdel]) htok
        rw [htr, finalizePaaS_trace]
        have := statusUpdateCalls_map_finalize
          ((teardownOrder env.cleanedLdapQueries).take (stopsAfter env))
        simp only [statusUpdateCalls, List.filterMap_append] at this ⊢
        rw [this]
        split <;> simp
      | false => simp [Reconcile, GetPaas, hget, hdel, htok, statusUpdateCalls]
    | none =>
      by_cases hreg : ContainsFinalizer p paasFinalizer = true ∨ env.Update = none
      · have hr : reachesPipeline env = true := by
          rcases hreg with h | h <;> simp [reachesPipeline, hget, hdel, h]
        rw [hr, (Reconcile_active_calls env req p hget hdel hreg).2]
        simp
      · have hc : ContainsFinalizer p paasFinalizer = false := by
          cases h : ContainsFinalizer p paasFinalizer with
          | false => rfl
          | true => exact absurd (Or.inl h) hreg
        cases hu : env.Update with
        | none => exact absurd (Or.inr hu) hreg
        | some e =>
          have hr : reachesPipeline env = false := by
            simp [reachesPipeline, hget, hdel, hc, hu]
          rw [hr]
          simp [Reconcile, GetPaas, hget, hdel, hc, hu, statusUpdateCalls]

/-- C6: for an active Paas whose finalizer set lacks the token, `Reconcile`
adds the token and issues the `Update` of the object right after the lookup,
before the first pipeline step; when that `Update` fails no pipeline step is
called and the retry result is returned with the error.  When the token is
present, `GetPaas` issues no `Update` and leaves the finalizer set as it is. -/
theorem Reconcile_registers_finalizer_first (env : Env) (req : Request) (p : Paas)
    (hget : env.Get = .ok p) (hactive : p.DeletionTimestamp = none) :
    (ContainsFinalizer p paasFinalizer = false →
        (Reconcile env req).trace.take 2
          = [Call.Get req.Name, Call.Update (p.Finalizers ++ [paasFinalizer])]
        ∧ (∀ e, env.Update = some e →
            (Reconcile env req).trace
              = [Call.Get req.Name, Call.Update (p.Finalizers ++ [paasFinalizer])]
            ∧ stepCalls (Reconcile env req).trace = []
            ∧ (Reconcile env req).result = { Requeue := true, RequeueAfter := 10 * 1000000000 }
            ∧ (Reconcile env req).err = some e)
        ∧ (env.Update = none →
            (Reconcile env req).trace[2]? = some (Call.Step .ReconcileQuotas)
            ∧ (GetPaas env req []).obj.Finalizers = p.Finalizers ++ [paasFinalizer]))
    ∧ (ContainsFinalizer p paasFinalizer = true →
        updateCalls (GetPaas env req []).trace = []
        ∧ (GetPaas env req []).obj.Finalizers = p.Finalizers
        ∧ (GetPaas env req []).paas = some p) := by
  refine ⟨?_, ?_⟩
  · intro hc
    have hadd : AddFinalizer p paasFinalizer
        = { p with Finalizers := p.Finalizers ++ [paasFinalizer] } := by
      have hc2 : p.Finalizers.contains paasFinalizer = false := hc
      unfold AddFinalizer
      rw [hc2]
      rfl
    cases hu : env.Update with
    | some e =>
      simp [Reconcile, GetPaas, hget, hactive, hc, hu, hadd, stepCalls, errResult, Second]
    | none =>
      obtain ⟨htr, _, _⟩ := Reconcile_active env req p hget hactive (Or.inr hu)
      have hinv : ∃ rest, invoked env pipelineOrder = .ReconcileQuotas :: rest := by
        simp only [invoked, pipelineOrder]
        split <;> exact ⟨_, rfl⟩
      obtain ⟨rest, hrest⟩ := hinv
      refine ⟨?_, (by intro e he; cases he), fun _ => ⟨?_, ?_⟩⟩
      · rw [htr, hrest]; simp [registration, hc]
      · rw [htr, hrest]; simp [registration, hc]
      · simp [GetPaas, hget, hactive, hc, hu, hadd]
  · intro hc
    simp [GetPaas, hget, hactive, hc, updateCalls]

/-- C6 at a pass over an active Paas without finalizers whose registration
fails: the `Update` carries the token, no pipeline step is called, the retry
result is returned. -/
theorem Reconcile_registers_finalizer_first_witness :
    envRegistrationFails.Get = .ok paasFresh
    ∧ (Reconcile envRegistrationFails reqDemo).trace
        = [Call.Get "demo", Call.Update ([] ++ [paasFinalizer])]
    ∧ stepCalls (Reconcile envRegistrationFails reqDemo).trace = []
    ∧ (Reconcile envRegistrationFails reqDemo).result
        = { Requeue := true, RequeueAfter := 10 * 1000000000 }
    ∧ (Reconcile envRegistrationFails reqDemo).err = some errBoom :=
  ⟨rfl,
    ((Reconcile_registers_finalizer_first envRegistrationFails reqDemo paasFresh rfl rfl).1
      (by decide)).2.1 errBoom rfl⟩

/-! ## Role bindings -/

/-- C7: `EnsureAdminRoleBinding` calls `Create` exactly when the lookup fails
with a not-found error.  A lookup failing otherwise: no `Create`, the lookup
error is returned, one ERROR find message is appended.  A successful lookup:
no `Create`, nil is returned, one INFO create message "already existed" is
appended.  After a not-found lookup the error returned is the outcome of
`Create`, mirrored as one INFO create "succeeded" or one ERROR create message.
In every case exactly one message is appended, and it is an ERROR exactly when
the error returned is non-nil. -/
theorem EnsureAdminRoleBinding_read_then_create (env : ClientEnv) (status : PaasStatus)
    (rb : RoleBinding) :
    ((∃ c, ClientCall.Create c ∈ (EnsureAdminRoleBinding env status rb).calls) ↔
        ∃ e, env.Get = some e ∧ e.isNotFound = true)
    ∧ (∀ e, env.Get = some e → e.isNotFound = false →
        (EnsureAdminRoleBinding env status rb).calls
          = [.Get { Name := rb.Name, Namespace := rb.Namespace }]
        ∧ (EnsureAdminRoleBinding env status rb).err = some e
        ∧ (EnsureAdminRoleBinding env status rb).status.Messages
          = status.Messages ++
              [{ severity := "ERROR", operation := "find",
                 targetKind := rb.TypeMeta.String,
                 targetIdentifier := rb.Namespace ++ "/" ++ rb.Name, detail := e.text }])
    ∧ (env.Get = none →
        (EnsureAdminRoleBinding env status rb).calls
          = [.Get { Name := rb.Name, Namespace := rb.Namespace }]
        ∧ (EnsureAdminRoleBinding env status rb).err = none
        ∧ (EnsureAdminRoleBinding env status rb).status.Messages
          = status.Messages ++
              [{ severity := "INFO", operation := "create",
                 targetKind := rb.TypeMeta.String,
                 targetIdentifier := rb.Namespace ++ "/" ++ rb.Name,
                 detail := "already existed" }])
    ∧ (∀ e, env.Get = some e → e.isNotFound = true →
        (EnsureAdminRoleBinding env status rb).calls
          = [.Get { Name := rb.Name, Namespace := rb.Namespace }, .Create rb]
        ∧ (EnsureAdminRoleBinding env status rb).err = env.Create
        ∧ (env.Create = none →
            (EnsureAdminRoleBinding env status rb).status.Messages
              = status.Messages ++
                  [{ severity := "INFO", operation := "create",
                     targetKind := rb.TypeMeta.String,
                     targetIdentifier := rb.Namespace ++ "/" ++ rb.Name,
                     detail := "succeeded" }])
        ∧ (∀ ce, env.Create = some ce →
            (EnsureAdminRoleBinding env status rb).status.Messages
              = status.Messages ++
                  [{ severity := "ERROR", operation := "create",
                     targetKind := rb.TypeMeta.String,
                     targetIdentifier := rb.Namespace ++ "/" ++ rb.Name,
                     detail := ce.text }]))
    ∧ ∃ m, (EnsureAdminRoleBinding env status rb).status.Messages = status.Messages ++ [m]
        ∧ (m.severity = "ERROR" ↔ (EnsureAdminRoleBinding env status rb).err ≠ none) := by
  cases hg : env.Get with
  | none =>
    simp [EnsureAdminRoleBinding, hg, PaasStatus.AddMessage, NamespacedName.String]
  | some e =>
    cases hnf : e.isNotFound with
    | false =>
      simp [EnsureAdminRoleBinding, hg, hnf, PaasStatus.AddMessage, NamespacedName.String]
    | true =>
      cases hc : env.Create with
      | none =>
        simp [EnsureAdminRoleBinding, hg, hnf, hc, PaasStatus.AddMessage,
          NamespacedName.String]
      | some ce =>
        simp [EnsureAdminRoleBinding, hg, hnf, hc, PaasStatus.AddMessage,
          NamespacedName.String]

/-- C7 at a not-found lookup followed by a failing creation: both calls are
made, the creation error is returned, one ERROR create message is appended. -/
theorem EnsureAdminRoleBinding_read_then_create_witness :
    (EnsureAdminRoleBinding clientCreateFails { Messages := [] }
        (adminBindingFor "demo-a" ["devs"])).calls
      = [.Get { Name := "paas-admin", Namespace := "demo-a" },
         .Create (adminBindingFor "demo-a" ["devs"])]
    ∧ (EnsureAdminRoleBinding clientCreateFails { Messages := [] }
        (adminBindingFor "demo-a" ["devs"])).err = some errBoom
    ∧ (EnsureAdminRoleBinding clientCreateFails { Messages := [] }
        (adminBindingFor "demo-a" ["devs"])).status.Messages
      = [] ++ [{ severity := "ERROR", operation := "create",
                 targetKind := (adminBindingFor "demo-a" ["devs"]).TypeMeta.String,
                 targetIdentifier := "demo-a" ++ "/" ++ "paas-admin", detail := "boom" }] :=
  have h := (EnsureAdminRoleBinding_read_then_create clientCreateFails { Messages := [] }
    (adminBindingFor "demo-a" ["devs"])).2.2.2.1 _ rfl rfl
  ⟨h.1, h.2.1, h.2.2.2 errBoom rfl⟩

/-- A loop that appends one element per entry builds the mapped list. -/
theorem foldl_append_map {α β : Type} (f : α → β) (l : List α) (init : List β) :
    l.foldl (fun acc x => acc ++ [f x]) init = init ++ l.map f := by
  induction l generalizing init with
  | nil => simp
  | cons a rest ih => simp [ih]

/-- A loop that appends one element per entry that passes a test builds the
mapped list of the entries that pass. -/
theorem foldl_append_filter_map {α β : Type} (f : α → β) (t : α → Bool) (l : List α)
    (init : List β) :
    l.foldl (fun acc x => if t x then acc ++ [f x] else acc) init
      = init ++ (l.filter t).map f := by
  induction l generalizing init with
  | nil => simp
  | cons a rest ih =>
    cases h : t a <;> simp [ih, h]

/-- The subjects of a binding built by `backendRoleBinding`: one Group per
group, in order. -/
theorem backendRoleBinding_subjects {Cap : Type} (paas : PaasView Cap) (name : NamespacedName)
    (groups : List String) :
    (backendRoleBinding paas name groups).Subjects
      = groups.map
          (fun g => { Kind := "Group", APIGroup := "rbac.authorization.k8s.io", Name := g }) := by
  simp only [backendRoleBinding]
  rw [foldl_append_map]
  simp

/-- The list `BackendEnabledRoleBindings` returns: the bindings of the enabled
capabilities, then the bindings of the namespaces. -/
theorem BackendEnabledRoleBindings_eq {Cap : Type} (IsEnabled : Cap → Bool)
    (paas : PaasView Cap) :
    BackendEnabledRoleBindings IsEnabled paas
      = (paas.Capabilities.filter (fun c => IsEnabled c.2)).map
          (fun c => backendRoleBinding paas
            { Name := "paas-admin", Namespace := paas.Name ++ "-" ++ c.1 } paas.GroupKeys)
        ++ paas.Namespaces.map
          (fun ns => backendRoleBinding paas
            { Name := "paas-admin", Namespace := paas.Name ++ "-" ++ ns } paas.GroupKeys) := by
  simp only [BackendEnabledRoleBindings]
  rw [foldl_append_map, foldl_append_filter_map]
  simp

/-- C9: `BackendEnabledRoleBindings` returns one RoleBinding per enabled
capability and one per entry of `Spec.Namespaces`, none for a disabled
capability: the length is the number of enabled capabilities plus the number of
namespaces; every binding is named "paas-admin", lives in the namespace
made of the Paas name, a dash and the capability name or namespace suffix,
refers to the ClusterRole "admin", and has one Group subject per group key, in
the order of the group keys; the bindings of the namespaces follow those of the
capabilities, in the order of `Spec.Namespaces`. -/
theorem BackendEnabledRoleBindings_shape {Cap : Type} (IsEnabled : Cap → Bool)
    (paas : PaasView Cap) :
    (BackendEnabledRoleBindings IsEnabled paas).length
      = (paas.Capabilities.filter (fun c => IsEnabled c.2)).length + paas.Namespaces.length
    ∧ (∀ rb ∈ BackendEnabledRoleBindings IsEnabled paas,
        rb.Name = "paas-admin"
        ∧ rb.RoleRef.Kind = "ClusterRole" ∧ rb.RoleRef.Name = "admin"
        ∧ rb.Subjects = paas.GroupKeys.map
            (fun g => { Kind := "Group", APIGroup := "rbac.authorization.k8s.io", Name := g })
        ∧ ∃ suffix, rb.Namespace = paas.Name ++ "-" ++ suffix
            ∧ ((∃ c ∈ paas.Capabilities, c.1 = suffix ∧ IsEnabled c.2 = true)
                ∨ suffix ∈ paas.Namespaces))
    ∧ (BackendEnabledRoleBindings IsEnabled paas).map (fun rb => rb.Namespace)
        = (paas.Capabilities.filter (fun c => IsEnabled c.2)).map
            (fun c => paas.Name ++ "-" ++ c.1)
          ++ paas.Namespaces.map (fun ns => paas.Name ++ "-" ++ ns) := by
  rw [BackendEnabledRoleBindings_eq]
  refine ⟨by simp, ?_, ?_⟩
  · intro rb hrb
    rw [List.mem_append] at hrb
    rcases hrb with h | h
    · obtain ⟨c, hc, rfl⟩ := List.mem_map.mp h
      rw [List.mem_filter] at hc
      exact ⟨rfl, rfl, rfl, backendRoleBinding_subjects _ _ _, c.1, rfl,
        Or.inl ⟨c, hc.1, rfl, hc.2⟩⟩
    · obtain ⟨ns, hns, rfl⟩ := List.mem_map.mp h
      exact ⟨rfl, rfl, rfl, backendRoleBinding_subjects _ _ _, ns, rfl, Or.inr hns⟩
  · simp [backendRoleBinding, Function.comp_def]

/-- C9 at a Paas with two namespaces, one enabled and one disabled capability:
three bindings, the one of the enabled capability first. -/
theorem BackendEnabledRoleBindings_shape_witness :
    (BackendEnabledRoleBindings id paasTwoNamespaces).length = 1 + 2
    ∧ (BackendEnabledRoleBindings id paasTwoNamespaces).map (fun rb => rb.Namespace)
        = ["demo-argocd", "demo-a", "demo-b"] :=
  ⟨(BackendEnabledRoleBindings_shape id paasTwoNamespaces).1,
   (BackendEnabledRoleBindings_shape id paasTwoNamespaces).2.2.trans (by decide)⟩

end OprPaas
